import Mathlib

/-!
Shallow embedding of the core scoring and scheduling utilities of the
aPlusStudy application (src/utils/spaced-repetition.ts, src/utils/scoring.ts,
and the exam result construction in src/components/PracticeExam.tsx),
together with theorems settling the specification claims about them.

Modelling conventions:
* JavaScript numbers are modelled as exact rationals (ℚ); `Math.round`
  is Mathlib's `round` (both compute ⌊x + 1/2⌋, rounding halves up).
* Timestamps are abstract integer day numbers (ℤ); the code reads the
  clock via `new Date()`, the embedding passes `now` explicitly.
* `YYYY-MM-DD` calendar-date strings are modelled as integer day numbers:
  parsing such a string yields UTC midnight, so two such dates differ by
  an exact multiple of 86400000 ms, and string equality coincides with
  day-number equality.
-/

/-- TS `enum Quality { Again = 0, Hard = 2, Good = 3, Easy = 5 }`
(src/utils/spaced-repetition.ts). -/
inductive Quality where
  | Again
  | Hard
  | Good
  | Easy
deriving DecidableEq

/-- The numeric value of each `Quality` member, as in the TS enum. -/
def Quality.val : Quality → ℚ
  | .Again => 0
  | .Hard => 2
  | .Good => 3
  | .Easy => 5

/-- `CardSchedule` record (src/types/index.ts). `nextReview`/`lastReview`
are ISO timestamps in the source, modelled as integer day numbers. -/
structure CardSchedule where
  cardId : String
  easeFactor : ℚ
  interval : ℤ
  repetitions : ℕ
  nextReview : ℤ
  lastReview : ℤ
deriving DecidableEq

/-- `createNewCardSchedule` (src/utils/spaced-repetition.ts); `now` is the
clock reading the source obtains from `new Date()`. -/
def createNewCardSchedule (cardId : String) (now : ℤ) : CardSchedule :=
  { cardId := cardId
    easeFactor := 2.5
    interval := 0
    repetitions := 0
    nextReview := now
    lastReview := now }

/-- `calculateNextReview` (src/utils/spaced-repetition.ts).  The quality
comparison `quality < Quality.Good` is the numeric comparison `q.val < 3`.
`Math.round(interval * easeFactor)` is `round`; adding `interval` calendar
days to `now` is `now + interval` in the day-number model. -/
def calculateNextReview (schedule : CardSchedule) (quality : Quality) (now : ℤ) :
    CardSchedule :=
  let ef0 : ℚ :=
    schedule.easeFactor + (0.1 - (5 - quality.val) * (0.08 + (5 - quality.val) * 0.02))
  let easeFactor : ℚ := if ef0 < 1.3 then 1.3 else ef0
  let ri : ℕ × ℤ :=
    if quality.val < (Quality.Good).val then
      (0, 1)
    else
      let reps := schedule.repetitions + 1
      if reps = 1 then (reps, 1)
      else if reps = 2 then (reps, 6)
      else (reps, round ((schedule.interval : ℚ) * easeFactor))
  { cardId := schedule.cardId
    easeFactor := easeFactor
    interval := ri.2
    repetitions := ri.1
    nextReview := now + ri.2
    lastReview := now }

/-- Folding `calculateNextReview` over a finite sequence of ratings
(each review performed at clock reading `now`; the clock does not affect
ease factor, interval or repetitions). -/
def applyReviews (s : CardSchedule) (qs : List Quality) (now : ℤ) : CardSchedule :=
  qs.foldl (fun st q => calculateNextReview st q now) s

/-- `StreakData` record (src/types/index.ts); `lastStudyDate` is a
`YYYY-MM-DD` string in the source, modelled as an integer day number. -/
structure StreakData where
  currentStreak : ℕ
  longestStreak : ℕ
  lastStudyDate : ℤ
deriving DecidableEq

/-- Milliseconds per day, the divisor `1000 * 60 * 60 * 24` in `updateStreak`. -/
def msPerDay : ℤ := 1000 * 60 * 60 * 24

/-- `updateStreak` (src/utils/scoring.ts); `today` is the calendar date the
source computes from the clock.  `new Date(d)` on a `YYYY-MM-DD` string gives
UTC midnight, i.e. `d * msPerDay` in milliseconds, and
`Math.floor((a - b) / msPerDay)` on such values is `Int.fdiv` since JS
`Math.floor` rounds toward negative infinity. -/
def updateStreak (current : Option StreakData) (today : ℤ) : StreakData :=
  match current with
  | none => { currentStreak := 1, longestStreak := 1, lastStudyDate := today }
  | some current =>
    if current.lastStudyDate = today then current
    else
      let diffDays : ℤ :=
        Int.fdiv (today * msPerDay - current.lastStudyDate * msPerDay) msPerDay
      if diffDays = 1 then
        let newStreak := current.currentStreak + 1
        { currentStreak := newStreak
          longestStreak := max newStreak current.longestStreak
          lastStudyDate := today }
      else
        { currentStreak := 1
          longestStreak := current.longestStreak
          lastStudyDate := today }

-- Helper lemmas

theorem quality_val_cases (q : Quality) :
    q.val = 0 ∨ q.val = 2 ∨ q.val = 3 ∨ q.val = 5 := by
  cases q <;> simp [Quality.val]

/-- The floored ease-factor update is `max 1.3 ef0`. -/
theorem ite_lt_eq_max (ef0 : ℚ) :
    (if ef0 < 1.3 then (1.3 : ℚ) else ef0) = max 1.3 ef0 := by
  rcases lt_or_le ef0 1.3 with h | h
  · rw [if_pos h, max_eq_left (le_of_lt h)]
  · rw [if_neg (not_lt.mpr h), max_eq_right h]

/-- The ease factor returned by any call is at least 1.3. -/
theorem calculateNextReview_easeFactor_ge (s : CardSchedule) (q : Quality) (now : ℤ) :
    (1.3 : ℚ) ≤ (calculateNextReview s q now).easeFactor := by
  show (1.3 : ℚ) ≤ (if _ < (1.3 : ℚ) then (1.3 : ℚ) else _)
  rw [ite_lt_eq_max]
  exact le_max_left _ _

theorem applyReviews_easeFactor_ge (s : CardSchedule) (qs : List Quality) (now : ℤ)
    (h : (1.3 : ℚ) ≤ s.easeFactor) :
    (1.3 : ℚ) ≤ (applyReviews s qs now).easeFactor := by
  induction qs generalizing s with
  | nil => exact h
  | cons q qs ih =>
    exact ih (calculateNextReview s q now) (calculateNextReview_easeFactor_ge s q now)

/-- C1: the ease-factor update follows the SM-2 formula floored at 1.3, and the
floor is preserved by any finite sequence of ratings. -/
theorem ease_factor_formula_and_floor (s : CardSchedule) (q : Quality)
    (qs : List Quality) (now : ℤ) (hef : (1.3 : ℚ) ≤ s.easeFactor) :
    (calculateNextReview s q now).easeFactor =
      max 1.3 (s.easeFactor + (0.1 - (5 - q.val) * (0.08 + (5 - q.val) * 0.02))) ∧
    (1.3 : ℚ) ≤ (applyReviews s qs now).easeFactor := by
  constructor
  · show (if _ < (1.3 : ℚ) then (1.3 : ℚ) else _) = _
    rw [ite_lt_eq_max]
  · exact applyReviews_easeFactor_ge s qs now hef

/-- C1 witness: instantiation at a concrete schedule, a Hard rating, and the
sequence Hard, Again, Hard. -/
theorem ease_factor_formula_and_floor_witness :
    (calculateNextReview (createNewCardSchedule "c1" 0) Quality.Hard 0).easeFactor =
      max 1.3 ((2.5 : ℚ) + (0.1 - (5 - 2) * (0.08 + (5 - 2) * 0.02))) ∧
    (1.3 : ℚ) ≤
      (applyReviews (createNewCardSchedule "c1" 0)
        [Quality.Hard, Quality.Again, Quality.Hard] 0).easeFactor :=
  ease_factor_formula_and_floor (createNewCardSchedule "c1" 0) Quality.Hard
    [Quality.Hard, Quality.Again, Quality.Hard] 0 (by norm_num [createNewCardSchedule])

/-- C2: a Good/Easy review increments repetitions and follows the interval
ladder 1, 6, round(interval * updated ease factor); from a new card three
consecutive Good reviews give intervals 1, 6, then more than 6. -/
theorem interval_ladder (s : CardSchedule) (q : Quality) (now : ℤ)
    (h : q = Quality.Good ∨ q = Quality.Easy) :
    ((calculateNextReview s q now).repetitions = s.repetitions + 1 ∧
     (s.repetitions = 0 → (calculateNextReview s q now).interval = 1) ∧
     (s.repetitions = 1 → (calculateNextReview s q now).interval = 6) ∧
     (2 ≤ s.repetitions →
       (calculateNextReview s q now).interval =
         round ((s.interval : ℚ) * (calculateNextReview s q now).easeFactor))) ∧
    ((applyReviews (createNewCardSchedule "c2" 0) [Quality.Good] 0).interval = 1 ∧
     (applyReviews (createNewCardSchedule "c2" 0)
        [Quality.Good, Quality.Good] 0).interval = 6 ∧
     6 < (applyReviews (createNewCardSchedule "c2" 0)
        [Quality.Good, Quality.Good, Quality.Good] 0).interval) := by
  have hlt : ¬ (q.val < (Quality.Good).val) := by
    obtain h | h := h <;> subst h <;> norm_num [Quality.val]
  refine ⟨⟨?_, ?_, ?_, ?_⟩, ?_, ?_, ?_⟩
  · simp only [calculateNextReview, if_neg hlt]
    split_ifs <;> rfl
  · intro h0
    simp only [calculateNextReview, if_neg hlt, h0]
    norm_num
  · intro h1
    simp only [calculateNextReview, if_neg hlt, h1]
    norm_num
  · intro h2
    simp only [calculateNextReview, if_neg hlt]
    rw [if_neg (by omega), if_neg (by omega)]
  · norm_num [applyReviews, calculateNextReview, createNewCardSchedule,
      Quality.val, round_eq]
  · norm_num [applyReviews, calculateNextReview, createNewCardSchedule,
      Quality.val, round_eq]
  · norm_num [applyReviews, calculateNextReview, createNewCardSchedule,
      Quality.val, round_eq]

/-- C2 witness: instantiation at a concrete schedule and a Good rating. -/
theorem interval_ladder_witness :
    (((calculateNextReview (createNewCardSchedule "c2w" 0) Quality.Good 0).repetitions =
        (createNewCardSchedule "c2w" 0).repetitions + 1 ∧
      ((createNewCardSchedule "c2w" 0).repetitions = 0 →
        (calculateNextReview (createNewCardSchedule "c2w" 0) Quality.Good 0).interval = 1) ∧
      ((createNewCardSchedule "c2w" 0).repetitions = 1 →
        (calculateNextReview (createNewCardSchedule "c2w" 0) Quality.Good 0).interval = 6) ∧
      (2 ≤ (createNewCardSchedule "c2w" 0).repetitions →
        (calculateNextReview (createNewCardSchedule "c2w" 0) Quality.Good 0).interval =
          round (((createNewCardSchedule "c2w" 0).interval : ℚ) *
            (calculateNextReview (createNewCardSchedule "c2w" 0) Quality.Good 0).easeFactor))) ∧
     ((applyReviews (createNewCardSchedule "c2" 0) [Quality.Good] 0).interval = 1 ∧
      (applyReviews (createNewCardSchedule "c2" 0)
         [Quality.Good, Quality.Good] 0).interval = 6 ∧
      6 < (applyReviews (createNewCardSchedule "c2" 0)
         [Quality.Good, Quality.Good, Quality.Good] 0).interval)) :=
  interval_ladder (createNewCardSchedule "c2w" 0) Quality.Good 0 (Or.inl rfl)

/-- C3: any rating below Good (Again or Hard) resets repetitions to 0 and
sets the interval to 1, regardless of the prior state. -/
theorem lapse_reset (s : CardSchedule) (q : Quality) (now : ℤ)
    (h : q = Quality.Again ∨ q = Quality.Hard) :
    (calculateNextReview s q now).repetitions = 0 ∧
    (calculateNextReview s q now).interval = 1 := by
  have hlt : q.val < (Quality.Good).val := by
    obtain h | h := h <;> subst h <;> norm_num [Quality.val]
  simp only [calculateNextReview, if_pos hlt]
  exact ⟨trivial, trivial⟩

/-- C3 witness: instantiation at a concrete mature schedule and an Again
rating. -/
theorem lapse_reset_witness :
    (calculateNextReview
      { cardId := "c3", easeFactor := 2.5, interval := 100, repetitions := 7,
        nextReview := 0, lastReview := 0 } Quality.Again 0).repetitions = 0 ∧
    (calculateNextReview
      { cardId := "c3", easeFactor := 2.5, interval := 100, repetitions := 7,
        nextReview := 0, lastReview := 0 } Quality.Again 0).interval = 1 :=
  lapse_reset
    { cardId := "c3", easeFactor := 2.5, interval := 100, repetitions := 7,
      nextReview := 0, lastReview := 0 } Quality.Again 0 (Or.inl rfl)

/-- The ease factor returned by `calculateNextReview` in closed form. -/
theorem calculateNextReview_easeFactor_eq (s : CardSchedule) (q : Quality) (now : ℤ) :
    (calculateNextReview s q now).easeFactor =
      max 1.3 (s.easeFactor + (0.1 - (5 - q.val) * (0.08 + (5 - q.val) * 0.02))) := by
  show (if _ < (1.3 : ℚ) then (1.3 : ℚ) else _) = _
  rw [ite_lt_eq_max]

/-- C10: from any schedule at or above the 1.3 floor, a Good rating yields
ease factor max(1.3, ef − 0.14), which never exceeds the previous ease
factor; no rating other than Easy increases the ease factor, Easy strictly
does; and cardId is always preserved. -/
theorem good_lowers_ease (s : CardSchedule) (now : ℤ)
    (hef : (1.3 : ℚ) ≤ s.easeFactor) :
    (calculateNextReview s Quality.Good now).easeFactor =
      max 1.3 (s.easeFactor - 0.14) ∧
    (calculateNextReview s Quality.Good now).easeFactor ≤ s.easeFactor ∧
    (∀ q, q ≠ Quality.Easy →
      (calculateNextReview s q now).easeFactor ≤ s.easeFactor) ∧
    s.easeFactor < (calculateNextReview s Quality.Easy now).easeFactor ∧
    (∀ s2 : CardSchedule, ∀ q2 : Quality, ∀ n2 : ℤ,
      (calculateNextReview s2 q2 n2).cardId = s2.cardId) := by
  have hq : ∀ q, q ≠ Quality.Easy →
      (calculateNextReview s q now).easeFactor ≤ s.easeFactor := by
    intro q hne
    rw [calculateNextReview_easeFactor_eq]
    cases q with
    | Again => norm_num [Quality.val]; linarith
    | Hard => norm_num [Quality.val]; linarith
    | Good => norm_num [Quality.val]; linarith
    | Easy => exact absurd rfl hne
  refine ⟨?_, hq Quality.Good (by decide), hq, ?_, fun s2 q2 n2 => rfl⟩
  · rw [calculateNextReview_easeFactor_eq]
    norm_num [Quality.val]
    ring_nf
  · rw [calculateNextReview_easeFactor_eq]
    norm_num [Quality.val]

/-- C10 witness: instantiation at a concrete schedule with ease factor 2.5. -/
theorem good_lowers_ease_witness :
    (calculateNextReview (createNewCardSchedule "c10" 0) Quality.Good 0).easeFactor =
      max 1.3 ((createNewCardSchedule "c10" 0).easeFactor - 0.14) ∧
    (calculateNextReview (createNewCardSchedule "c10" 0) Quality.Good 0).easeFactor ≤
      (createNewCardSchedule "c10" 0).easeFactor ∧
    (∀ q, q ≠ Quality.Easy →
      (calculateNextReview (createNewCardSchedule "c10" 0) q 0).easeFactor ≤
        (createNewCardSchedule "c10" 0).easeFactor) ∧
    (createNewCardSchedule "c10" 0).easeFactor <
      (calculateNextReview (createNewCardSchedule "c10" 0) Quality.Easy 0).easeFactor ∧
    (∀ s2 : CardSchedule, ∀ q2 : Quality, ∀ n2 : ℤ,
      (calculateNextReview s2 q2 n2).cardId = s2.cardId) :=
  good_lowers_ease (createNewCardSchedule "c10" 0) 0
    (by norm_num [createNewCardSchedule])

-- Streak helper lemmas

/-- Updating on the already-recorded day returns the input unchanged. -/
theorem updateStreak_same_day (s : StreakData) (today : ℤ)
    (h : s.lastStudyDate = today) : updateStreak (some s) today = s := by
  simp only [updateStreak, if_pos h]

/-- Every result of `updateStreak` carries `today` as its study date. -/
theorem updateStreak_lastStudyDate (c : Option StreakData) (today : ℤ) :
    (updateStreak c today).lastStudyDate = today := by
  match c with
  | none => rfl
  | some s =>
    simp only [updateStreak]
    split_ifs with h1 h2
    · exact h1
    · rfl
    · rfl

/-- C7: updating on the day already recorded returns the input unchanged, so
a second update with the same day is a no-op. -/
theorem streak_same_day_idempotent (prev : StreakData) (c : Option StreakData)
    (today : ℤ) (h : prev.lastStudyDate = today) :
    updateStreak (some prev) today = prev ∧
    updateStreak (some (updateStreak c today)) today = updateStreak c today := by
  exact ⟨updateStreak_same_day prev today h,
    updateStreak_same_day (updateStreak c today) today
      (updateStreak_lastStudyDate c today)⟩

/-- C7 witness: instantiation at a concrete streak record and day. -/
theorem streak_same_day_idempotent_witness :
    updateStreak (some { currentStreak := 3, longestStreak := 5, lastStudyDate := 40 }) 40 =
      { currentStreak := 3, longestStreak := 5, lastStudyDate := 40 } ∧
    updateStreak (some (updateStreak none 40)) 40 = updateStreak none 40 :=
  streak_same_day_idempotent
    { currentStreak := 3, longestStreak := 5, lastStudyDate := 40 } none 40 rfl

/-- The floored millisecond quotient in `updateStreak` is the plain day
difference. -/
theorem diffDays_eq (a b : ℤ) :
    Int.fdiv (a * msPerDay - b * msPerDay) msPerDay = a - b := by
  have h : a * msPerDay - b * msPerDay = (a - b) * msPerDay := by ring
  rw [h, Int.mul_fdiv_cancel _ (by norm_num [msPerDay])]

/-- One `updateStreak` step never decreases `longestStreak`. -/
theorem updateStreak_longest_mono (s : StreakData) (t : ℤ) :
    s.longestStreak ≤ (updateStreak (some s) t).longestStreak := by
  simp only [updateStreak]
  split_ifs
  · exact le_refl _
  · exact le_max_right _ _
  · exact le_refl _

/-- One `updateStreak` step preserves `1 ≤ currentStreak ≤ longestStreak`. -/
theorem updateStreak_inv (s : StreakData) (t : ℤ)
    (h1 : 1 ≤ s.currentStreak) (h2 : s.currentStreak ≤ s.longestStreak) :
    1 ≤ (updateStreak (some s) t).currentStreak ∧
    (updateStreak (some s) t).currentStreak ≤ (updateStreak (some s) t).longestStreak := by
  simp only [updateStreak]
  split_ifs
  · exact ⟨h1, h2⟩
  · constructor
    · show 1 ≤ s.currentStreak + 1
      omega
    · show s.currentStreak + 1 ≤ max (s.currentStreak + 1) s.longestStreak
      exact le_max_left _ _
  · constructor
    · show (1 : ℕ) ≤ 1
      exact le_refl 1
    · show (1 : ℕ) ≤ s.longestStreak
      exact le_trans h1 h2

theorem streak_fold_inv (start : StreakData) (ds : List ℤ)
    (h1 : 1 ≤ start.currentStreak) (h2 : start.currentStreak ≤ start.longestStreak) :
    1 ≤ (ds.foldl (fun st day => updateStreak (some st) day) start).currentStreak ∧
    (ds.foldl (fun st day => updateStreak (some st) day) start).currentStreak ≤
      (ds.foldl (fun st day => updateStreak (some st) day) start).longestStreak := by
  induction ds generalizing start with
  | nil => exact ⟨h1, h2⟩
  | cons day ds ih =>
    obtain ⟨g1, g2⟩ := updateStreak_inv start day h1 h2
    exact ih (updateStreak (some start) day) g1 g2

/-- C8: `longestStreak` never decreases across an `updateStreak` call, and
`longestStreak >= currentStreak` holds for every state reachable from the
absent state by a finite sequence of updates. -/
theorem longest_streak_invariant (s : StreakData) (t d : ℤ) (ds : List ℤ) :
    s.longestStreak ≤ (updateStreak (some s) t).longestStreak ∧
    (ds.foldl (fun st day => updateStreak (some st) day)
        (updateStreak none d)).currentStreak ≤
      (ds.foldl (fun st day => updateStreak (some st) day)
        (updateStreak none d)).longestStreak := by
  refine ⟨updateStreak_longest_mono s t, ?_⟩
  exact (streak_fold_inv (updateStreak none d) ds (le_refl 1) (le_refl 1)).2

/-- C9: a gap of two or more days, or a clock running backwards, resets the
current streak to 1, keeps the longest streak, and records today. -/
theorem streak_gap_reset (prev : StreakData) (today : ℤ)
    (h : prev.lastStudyDate + 2 ≤ today ∨ today < prev.lastStudyDate) :
    updateStreak (some prev) today =
      { currentStreak := 1, longestStreak := prev.longestStreak,
        lastStudyDate := today } := by
  have hne : ¬ prev.lastStudyDate = today := by omega
  have hdiff : ¬ (Int.fdiv (today * msPerDay - prev.lastStudyDate * msPerDay)
      msPerDay = 1) := by
    rw [diffDays_eq]
    omega
  simp only [updateStreak, if_neg hne, if_neg hdiff]

/-- C9 witness: a five-day gap and a backwards clock, at concrete dates. -/
theorem streak_gap_reset_witness :
    ((20 : ℤ) + 2 ≤ 25 ∨ (25 : ℤ) < 20) ∧
    updateStreak
      (some { currentStreak := 4, longestStreak := 9, lastStudyDate := 20 }) 25 =
      { currentStreak := 1, longestStreak := 9, lastStudyDate := 25 } :=
  ⟨Or.inl (by norm_num),
    streak_gap_reset
      { currentStreak := 4, longestStreak := 9, lastStudyDate := 20 } 25
      (Or.inl (by norm_num))⟩

/-- Mastery classification values (src/types/index.ts). -/
inductive Mastery where
  | not_started
  | in_progress
  | mastered
deriving DecidableEq

/-- `ObjectiveProgress` record (src/types/index.ts). -/
structure ObjectiveProgress where
  objectiveId : String
  exam : String
  mastery : Mastery
  quizScores : List ℚ
  flashcardsReviewed : ℕ
  lastStudied : String

/-- `calculateDomainScore` (src/utils/scoring.ts): `reduce((a, b) => a + b, 0)`
is the list sum, `Math.round` is `round`. -/
def calculateDomainScore (progress : List ObjectiveProgress) : ℤ :=
  if progress.length = 0 then 0
  else
    let scores := (progress.filter fun p => 0 < p.quizScores.length).map
      (fun p => p.quizScores.sum / (p.quizScores.length : ℚ))
    if scores.length = 0 then 0
    else round (scores.sum / (scores.length : ℚ))

/-- The domain-score contract in the spec's words: mean of the per-objective
means over records with a non-empty score list, rounded, 0 when no record
has any scores. -/
def domainScoreSpec (progress : List ObjectiveProgress) : ℤ :=
  let means := (progress.filter fun p => p.quizScores ≠ []).map
    (fun p => p.quizScores.sum / (p.quizScores.length : ℚ))
  if means = [] then 0 else round (means.sum / (means.length : ℚ))

/-- A progress record carrying only a quiz-score history, used for the
concrete examples. -/
def mkProgress (objectiveId : String) (scores : List ℚ) : ObjectiveProgress :=
  { objectiveId := objectiveId
    exam := "Core 1"
    mastery := Mastery.in_progress
    quizScores := scores
    flashcardsReviewed := 0
    lastStudied := "" }

/-- C5: `calculateDomainScore` is the rounded mean of per-objective means,
taken only over objectives with recorded scores, 0 when there are none;
objectives scoring [90] and [70] give 80. -/
theorem domain_score_spec (progress : List ObjectiveProgress) :
    calculateDomainScore progress = domainScoreSpec progress ∧
    calculateDomainScore [mkProgress "1.1" [90], mkProgress "1.2" [70]] = 80 := by
  constructor
  · have hfilter : (progress.filter fun p => 0 < p.quizScores.length) =
        (progress.filter fun p => p.quizScores ≠ []) := by
      apply List.filter_congr
      intro p _
      simp [List.length_pos, decide_eq_decide]
    rw [calculateDomainScore, domainScoreSpec, hfilter]
    by_cases hp : progress.length = 0
    · rw [if_pos hp]
      rw [List.length_eq_zero] at hp
      subst hp
      simp
    · rw [if_neg hp]
      by_cases hs : ((progress.filter fun p => p.quizScores ≠ []).map
          (fun p => p.quizScores.sum / (p.quizScores.length : ℚ))).length = 0
      · rw [if_pos hs, List.length_eq_zero] at *
        rw [if_pos hs]
      · rw [if_neg hs]
        rw [List.length_eq_zero] at hs
        rw [if_neg hs]
  · norm_num [calculateDomainScore, mkProgress, round_eq]

/-- `domainScores[domain] ?? 0` in `calculateReadinessScore`: a JS object is
an association list keyed by strings, a missing key yields 0. -/
def lookupScore (domainScores : List (String × ℚ)) (domain : String) : ℚ :=
  match domainScores.lookup domain with
  | some v => v
  | none => 0

/-- `calculateReadinessScore` (src/utils/scoring.ts): the `for..of` loop over
`Object.entries(domainWeights)` accumulating `weightedSum` and `totalWeight`
is a left fold over the weight entries. -/
def calculateReadinessScore (domainScores domainWeights : List (String × ℚ)) : ℤ :=
  let acc := domainWeights.foldl
    (fun (acc : ℚ × ℚ) dw => (acc.1 + lookupScore domainScores dw.1 * dw.2, acc.2 + dw.2))
    (0, 0)
  if acc.2 > 0 then round (acc.1 / acc.2) else 0

/-- The readiness contract in the spec's words: the rounded weighted mean
over the domains present in the weight map, missing scores as 0, and 0 when
the total weight is 0. -/
def readinessScoreSpec (domainScores domainWeights : List (String × ℚ)) : ℤ :=
  let totalWeight := (domainWeights.map fun dw => dw.2).sum
  let weightedSum := (domainWeights.map fun dw => lookupScore domainScores dw.1 * dw.2).sum
  if totalWeight = 0 then 0 else round (weightedSum / totalWeight)

/-- The readiness fold accumulates the two sums. -/
theorem readiness_foldl_eq (ds : List (String × ℚ)) (l : List (String × ℚ)) (a b : ℚ) :
    l.foldl (fun (acc : ℚ × ℚ) dw =>
        (acc.1 + lookupScore ds dw.1 * dw.2, acc.2 + dw.2)) (a, b) =
      (a + (l.map fun dw => lookupScore ds dw.1 * dw.2).sum,
       b + (l.map fun dw => dw.2).sum) := by
  induction l generalizing a b with
  | nil => simp
  | cons x xs ih =>
    simp only [List.foldl_cons, List.map_cons, List.sum_cons, ih, add_assoc]

theorem lookup_mem {l : List (String × ℚ)} {d : String} {v : ℚ}
    (h : l.lookup d = some v) : (d, v) ∈ l := by
  induction l with
  | nil => simp [List.lookup] at h
  | cons x xs ih =>
    rw [List.lookup_cons] at h
    cases hb : d == x.1
    · rw [hb] at h
      exact List.mem_cons_of_mem x (ih h)
    · rw [hb] at h
      have hv : x.2 = v := Option.some.inj h
      have hd : d = x.1 := eq_of_beq hb
      rw [hd, ← hv]
      exact List.mem_cons_self x xs

theorem lookupScore_bounds (ds : List (String × ℚ))
    (hs : ∀ p ∈ ds, 0 ≤ p.2 ∧ p.2 ≤ 100) (d : String) :
    0 ≤ lookupScore ds d ∧ lookupScore ds d ≤ 100 := by
  rw [lookupScore]
  cases h : ds.lookup d with
  | none => norm_num
  | some v => exact hs (d, v) (lookup_mem h)

theorem weighted_sum_bounds (ds dw : List (String × ℚ))
    (hs : ∀ p ∈ ds, 0 ≤ p.2 ∧ p.2 ≤ 100) (hw : ∀ p ∈ dw, 0 ≤ p.2) :
    0 ≤ (dw.map fun p => lookupScore ds p.1 * p.2).sum ∧
    (dw.map fun p => lookupScore ds p.1 * p.2).sum ≤
      100 * (dw.map fun p => p.2).sum ∧
    0 ≤ (dw.map fun p => p.2).sum := by
  induction dw with
  | nil => norm_num
  | cons x xs ih =>
    have hx := hw x (List.mem_cons_self x xs)
    obtain ⟨ih1, ih2, ih3⟩ := ih (fun p hp => hw p (List.mem_cons_of_mem x hp))
    obtain ⟨hl0, hl100⟩ := lookupScore_bounds ds hs x.1
    refine ⟨?_, ?_, ?_⟩
    · simp only [List.map_cons, List.sum_cons]
      have : 0 ≤ lookupScore ds x.1 * x.2 := mul_nonneg hl0 hx
      linarith
    · simp only [List.map_cons, List.sum_cons]
      have : lookupScore ds x.1 * x.2 ≤ 100 * x.2 :=
        mul_le_mul_of_nonneg_right hl100 hx
      nlinarith
    · simp only [List.map_cons, List.sum_cons]
      linarith

/-- `round` is monotone. -/
theorem round_mono_rat {a b : ℚ} (h : a ≤ b) : round a ≤ round b := by
  rw [round_eq, round_eq]
  exact Int.floor_le_floor (by linarith)

/-- C6: `calculateReadinessScore` is the rounded weight-normalized mean over
the weight map with missing scores as 0 and a zero-total-weight guard; for
scores in [0,100] and non-negative weights the result is in [0,100]; scores
{A:100, B:50} with weights {A:25, B:75} give 63. -/
theorem readiness_weighted_mean (ds dw : List (String × ℚ))
    (hs : ∀ p ∈ ds, 0 ≤ p.2 ∧ p.2 ≤ 100) (hw : ∀ p ∈ dw, 0 ≤ p.2) :
    calculateReadinessScore ds dw = readinessScoreSpec ds dw ∧
    0 ≤ calculateReadinessScore ds dw ∧
    calculateReadinessScore ds dw ≤ 100 ∧
    calculateReadinessScore [("A", 100), ("B", 50)] [("A", 25), ("B", 75)] = 63 := by
  obtain ⟨hws0, hws100, htw0⟩ := weighted_sum_bounds ds dw hs hw
  have hfold : calculateReadinessScore ds dw =
      if (dw.map fun p => p.2).sum > 0
      then round ((dw.map fun p => lookupScore ds p.1 * p.2).sum /
        (dw.map fun p => p.2).sum)
      else 0 := by
    rw [calculateReadinessScore, readiness_foldl_eq]
    norm_num
  have hex : calculateReadinessScore [("A", 100), ("B", 50)] [("A", 25), ("B", 75)] =
      63 := by
    rw [calculateReadinessScore, readiness_foldl_eq]
    have h1 : lookupScore [("A", 100), ("B", 50)] "A" = 100 := rfl
    have h2 : lookupScore [("A", 100), ("B", 50)] "B" = 50 := rfl
    norm_num [h1, h2, round_eq]
  refine ⟨?_, ?_, ?_, hex⟩
  · rw [hfold, readinessScoreSpec]
    rcases lt_or_eq_of_le htw0 with htw | htw
    · rw [if_pos htw, if_neg (by linarith)]
    · rw [if_neg (by linarith), if_pos htw.symm]
  · rw [hfold]
    rcases lt_or_eq_of_le htw0 with htw | htw
    · rw [if_pos htw]
      have : (0 : ℤ) = round (0 : ℚ) := by norm_num
      rw [this]
      exact round_mono_rat (div_nonneg hws0 (le_of_lt htw))
    · rw [if_neg (by linarith)]
  · rw [hfold]
    rcases lt_or_eq_of_le htw0 with htw | htw
    · rw [if_pos htw]
      have hle : (dw.map fun p => lookupScore ds p.1 * p.2).sum /
          (dw.map fun p => p.2).sum ≤ 100 := by
        rw [div_le_iff₀ htw]
        linarith
      have : (100 : ℤ) = round (100 : ℚ) := by norm_num
      rw [this]
      exact round_mono_rat hle
    · rw [if_neg (by linarith)]
      norm_num

/-- C6 witness: instantiation at the spec's concrete example maps. -/
theorem readiness_weighted_mean_witness :
    calculateReadinessScore [("A", 100), ("B", 50)] [("A", 25), ("B", 75)] =
      readinessScoreSpec [("A", 100), ("B", 50)] [("A", 25), ("B", 75)] ∧
    0 ≤ calculateReadinessScore [("A", 100), ("B", 50)] [("A", 25), ("B", 75)] ∧
    calculateReadinessScore [("A", 100), ("B", 50)] [("A", 25), ("B", 75)] ≤ 100 ∧
    calculateReadinessScore [("A", 100), ("B", 50)] [("A", 25), ("B", 75)] = 63 :=
  readiness_weighted_mean [("A", 100), ("B", 50)] [("A", 25), ("B", 75)]
    (by decide) (by decide)

/-- `QuestionResult` as the quiz/exam flow produces it: a tagged union
discriminated by the question type (src/components/PracticeExam.tsx).  The
last field of the matching variant is the fractional-credit value
`correctPairs / totalPairs` (0 when `totalPairs` is 0). -/
inductive QuestionResult where
  | multipleChoice (questionId : String) (selectedAnswer : String) (correct : Bool)
  | matching (questionId : String) (selectedPairs : List (String × String))
      (correctPairs : ℕ) (totalPairs : ℕ) (correct : Bool) (pScore : ℚ)
deriving DecidableEq

/-- Modelled from the spec: `calculateQuestionScore` is exported from
src/utils/scoring.ts in the repository (its unit tests and the quiz and
exam components import it from there) but its body is not among the source
files available here.  Per the spec: multiple-choice returns 1 if `correct`
else 0, matching returns the fractional-credit field directly. -/
def calculateQuestionScore : QuestionResult → ℚ
  | .multipleChoice _ _ c => if c then 1 else 0
  | .matching _ _ _ _ _ ps => ps

/-- The matching-question result `submitExam` constructs
(src/components/PracticeExam.tsx): `correctCount` counts the learner pairs
present in the answer key, `correct` means all pairs matched, and the
fractional credit is `correctCount / total` guarded by `total > 0`. -/
def mkMatchingResult (questionId : String)
    (userPairs keyPairs : List (String × String)) : QuestionResult :=
  let correctCount :=
    (userPairs.filter fun up => keyPairs.any fun cp => cp.1 = up.1 ∧ cp.2 = up.2).length
  let total := keyPairs.length
  .matching questionId userPairs correctCount total (correctCount = total)
    (if 0 < total then (correctCount : ℚ) / (total : ℚ) else 0)

/-- The pairs `submitExam` keeps are exactly the user pairs that occur in the
answer key. -/
theorem matching_filter_eq (userPairs keyPairs : List (String × String)) :
    (userPairs.filter fun up => keyPairs.any fun cp => cp.1 = up.1 ∧ cp.2 = up.2) =
      userPairs.filter (fun up => up ∈ keyPairs) := by
  apply List.filter_congr
  intro up _
  rw [← Bool.coe_iff_coe]
  simp only [List.any_eq_true, decide_eq_true_eq]
  constructor
  · rintro ⟨cp, hcp, h1, h2⟩
    have : cp = up := Prod.ext h1 h2
    rwa [this] at hcp
  · intro hup
    exact ⟨up, hup, rfl, rfl⟩

/-- With duplicate-free user pairs, at most `keyPairs.length` pairs match. -/
theorem matching_count_le (userPairs keyPairs : List (String × String))
    (hnd : userPairs.Nodup) :
    (userPairs.filter fun up =>
      keyPairs.any fun cp => cp.1 = up.1 ∧ cp.2 = up.2).length ≤ keyPairs.length := by
  rw [matching_filter_eq]
  apply List.Subperm.length_le
  apply List.Nodup.subperm (hnd.filter _)
  intro up hup
  exact of_decide_eq_true (List.mem_filter.mp hup).2

/-- C4: the question scorer returns 1/0 for multiple choice and the
fractional-credit field for matching; on results built by `submitExam` from
duplicate-free user pairs the value is `correctPairs / totalPairs`, is 0
when `totalPairs = 0`, and always lies in [0,1]. -/
theorem question_score_contract (qid sel : String) (c : Bool)
    (qid2 : String) (sp : List (String × String)) (cp tp : ℕ) (cb : Bool) (ps : ℚ)
    (qid3 : String) (userPairs keyPairs : List (String × String))
    (hnd : userPairs.Nodup) :
    calculateQuestionScore (.multipleChoice qid sel c) = (if c then 1 else 0) ∧
    (0 ≤ calculateQuestionScore (.multipleChoice qid sel c) ∧
      calculateQuestionScore (.multipleChoice qid sel c) ≤ 1) ∧
    calculateQuestionScore (.matching qid2 sp cp tp cb ps) = ps ∧
    (calculateQuestionScore (mkMatchingResult qid3 userPairs keyPairs) =
      if 0 < keyPairs.length
      then ((userPairs.filter fun up =>
          keyPairs.any fun cp2 => cp2.1 = up.1 ∧ cp2.2 = up.2).length : ℚ) /
        (keyPairs.length : ℚ)
      else 0) ∧
    (keyPairs.length = 0 →
      calculateQuestionScore (mkMatchingResult qid3 userPairs keyPairs) = 0) ∧
    0 ≤ calculateQuestionScore (mkMatchingResult qid3 userPairs keyPairs) ∧
    calculateQuestionScore (mkMatchingResult qid3 userPairs keyPairs) ≤ 1 := by
  have hmk : calculateQuestionScore (mkMatchingResult qid3 userPairs keyPairs) =
      if 0 < keyPairs.length
      then ((userPairs.filter fun up =>
          keyPairs.any fun cp2 => cp2.1 = up.1 ∧ cp2.2 = up.2).length : ℚ) /
        (keyPairs.length : ℚ)
      else 0 := rfl
  have hcount := matching_count_le userPairs keyPairs hnd
  refine ⟨rfl, ⟨?_, ?_⟩, rfl, hmk, ?_, ?_, ?_⟩
  · cases c <;> norm_num [calculateQuestionScore]
  · cases c <;> norm_num [calculateQuestionScore]
  · intro h0
    rw [hmk, if_neg (by omega)]
  · rw [hmk]
    split_ifs with hpos
    · positivity
    · exact le_refl 0
  · rw [hmk]
    split_ifs with hpos
    · rw [div_le_one (by exact_mod_cast hpos)]
      exact_mod_cast hcount
    · norm_num

/-- C4 witness: a correct multiple-choice result and a half-right matching
result with two duplicate-free user pairs against a two-pair key. -/
theorem question_score_contract_witness :
    (calculateQuestionScore (.multipleChoice "q1" "A" true) =
      (if true then 1 else 0) ∧
    (0 ≤ calculateQuestionScore (.multipleChoice "q1" "A" true) ∧
      calculateQuestionScore (.multipleChoice "q1" "A" true) ≤ 1) ∧
    calculateQuestionScore (.matching "q2" [("A", "1")] 1 2 false 0.5) = 0.5 ∧
    (calculateQuestionScore
        (mkMatchingResult "q3" [("A", "1"), ("B", "2")] [("A", "1"), ("B", "3")]) =
      if 0 < ([("A", "1"), ("B", "3")] : List (String × String)).length
      then ((([("A", "1"), ("B", "2")] : List (String × String)).filter fun up =>
          ([("A", "1"), ("B", "3")] : List (String × String)).any
            fun cp2 => cp2.1 = up.1 ∧ cp2.2 = up.2).length : ℚ) /
        (([("A", "1"), ("B", "3")] : List (String × String)).length : ℚ)
      else 0) ∧
    (([("A", "1"), ("B", "3")] : List (String × String)).length = 0 →
      calculateQuestionScore
        (mkMatchingResult "q3" [("A", "1"), ("B", "2")] [("A", "1"), ("B", "3")]) = 0) ∧
    0 ≤ calculateQuestionScore
        (mkMatchingResult "q3" [("A", "1"), ("B", "2")] [("A", "1"), ("B", "3")]) ∧
    calculateQuestionScore
        (mkMatchingResult "q3" [("A", "1"), ("B", "2")] [("A", "1"), ("B", "3")]) ≤ 1) :=
  question_score_contract "q1" "A" true "q2" [("A", "1")] 1 2 false 0.5
    "q3" [("A", "1"), ("B", "2")] [("A", "1"), ("B", "3")] (by decide)
